import Mathlib

/-!
Verification of the natural-language-to-query compiler and safety pipeline of
MongodbMyAdmin.

The subsystem under study lives in two PHP controllers:
  * DataController (AI features): castExtendedJson, normalizeId, buildCaseMap,
    remapQueryKeysCaseInsensitive, parseModelJson, sanitizeMongoQuery,
    escapeRegex, makeFuzzy, aiGenerate, aiRun;
  * AiController: nl2mongo (with the dangerous-operator blocklist) and execute
    (with the clamped limit and the appended terminal aggregation limit stage).

We shallowly embed the PHP values these functions manipulate.  A decoded JSON
tree in PHP is built from strings, integers, booleans, null and arrays; after
casting, BSON ObjectId / UTCDateTime / Regex objects may appear.  PHP arrays
are either lists (integer keys 0..n-1) or associative arrays (string keys,
order preserved, keys unique); json_decode produces a list for a JSON array
and an associative array for a JSON object (the empty JSON object decodes to
the empty PHP array, which is also a list; none of the embedded functions
distinguish the two empty forms, see the lemmas below).  We model the two
array forms with separate constructors.  BSON result documents (objects in
PHP) are also modelled with the associative constructor: each embedded
function only ever receives one of the two PHP representations, so the
conflation is harmless.  Floats do not occur in the claims and are omitted.
-/

mutual

inductive PVal where
  | pstr : String → PVal
  | pint : Int → PVal
  | pbool : Bool → PVal
  | pnull : PVal
  | poid : String → PVal
  | pdate : Int → PVal
  | pregex : String → String → PVal
  | pobj : PObj → PVal
  | plist : PList → PVal
deriving DecidableEq

inductive PObj where
  | nil : PObj
  | cons : String → PVal → PObj → PObj
deriving DecidableEq

inductive PList where
  | nil : PList
  | cons : PVal → PList → PList
deriving DecidableEq

end

/-- PHP is_array: true for both array forms. -/
def isArrV : PVal → Bool
  | .pobj _ => true
  | .plist _ => true
  | _ => false

/-- PHP is_string. -/
def isStringV : PVal → Bool
  | .pstr _ => true
  | _ => false

/-- PHP array_key_exists / direct string-key access on an associative array:
first entry with the given key (PHP arrays have unique keys, so at most one
entry matches on any value that comes from PHP). -/
def lookupPObj : PObj → String → Option PVal
  | .nil, _ => none
  | .cons k v rest, key => if k = key then some v else lookupPObj rest key

/-- PHP assignment out[k] = v on an associative array: replace the value at an
existing key in place, else append a new entry at the end. -/
def insertPObj : PObj → String → PVal → PObj
  | .nil, k, v => .cons k v .nil
  | .cons k0 v0 rest, k, v =>
      if k0 = k then .cons k0 v rest else .cons k0 v0 (insertPObj rest k v)

def hasKeyPObj : PObj → String → Bool
  | .nil, _ => false
  | .cons k _ rest, key => k = key || hasKeyPObj rest key

/-- PHP array append (pipeline[] = x) on a list. -/
def pappend : PList → PVal → PList
  | .nil, x => .cons x .nil
  | .cons v rest, x => .cons v (pappend rest x)

def plistLast : PList → Option PVal
  | .nil => none
  | .cons v .nil => some v
  | .cons _ (.cons v rest) => plistLast (.cons v rest)

/-- PHP strtolower (byte-wise ASCII lowering). -/
def asciiLowerChar (c : Char) : Char :=
  if 'A' ≤ c ∧ c ≤ 'Z' then Char.ofNat (c.toNat + 32) else c

def asciiLower (s : String) : String := String.mk (s.data.map asciiLowerChar)

/-- Characters stripped by PHP trim with its default character list
(space, tab, newline, carriage return, NUL, vertical tab). -/
def isPhpTrimChar (c : Char) : Bool :=
  c = ' ' || c = '\t' || c = '\n' || c = '\r' || c = '\x00' || c = '\x0b'

def phpTrim (s : String) : String :=
  String.mk (((s.data.dropWhile isPhpTrimChar).reverse.dropWhile isPhpTrimChar).reverse)

def isHexDigitChar (c : Char) : Bool :=
  ('0' ≤ c ∧ c ≤ '9') || ('a' ≤ c ∧ c ≤ 'f') || ('A' ≤ c ∧ c ≤ 'F')

/-- Validity condition of the MongoDB\BSON\ObjectId constructor: a
24-character hexadecimal string (case-insensitive); anything else throws. -/
def isHex24 (s : String) : Bool :=
  s.data.length = 24 && s.data.all isHexDigitChar

/-- PHP leading-integer string parse, as performed by an (int) cast on a
string: optional leading whitespace, optional sign, then decimal digits
(numeric-string exponent forms are not exercised by any claim and are not
modelled). -/
def phpDigits : List Char → Nat → Nat
  | [], acc => acc
  | c :: rest, acc =>
      if '0' ≤ c ∧ c ≤ '9' then phpDigits rest (acc * 10 + (c.toNat - '0'.toNat))
      else acc

def phpStrToInt (s : String) : Int :=
  match s.data.dropWhile isPhpTrimChar with
  | '-' :: rest => - (phpDigits rest 0 : Int)
  | '+' :: rest => (phpDigits rest 0 : Int)
  | l => (phpDigits l 0 : Int)

/-- PHP (int) cast.  On arrays: 0 when empty, 1 otherwise; on objects PHP
emits a notice and yields 1. -/
def phpIntCast : PVal → Int
  | .pint n => n
  | .pstr s => phpStrToInt s
  | .pbool true => 1
  | .pbool false => 0
  | .pnull => 0
  | .pobj .nil => 0
  | .pobj _ => 1
  | .plist .nil => 0
  | .plist _ => 1
  | .poid _ => 1
  | .pdate _ => 1
  | .pregex _ _ => 1

/-- PHP (string) cast.  ObjectId stringifies to its 24-hex form, UTCDateTime
to its millisecond count, Regex to /pattern/flags; arrays give "Array". -/
def phpToString : PVal → String
  | .pstr s => s
  | .pint n => toString n
  | .pbool true => "1"
  | .pbool false => ""
  | .pnull => ""
  | .pobj _ => "Array"
  | .plist _ => "Array"
  | .poid h => h
  | .pdate n => toString n
  | .pregex p o => "/" ++ p ++ "/" ++ o

/-- PHP empty(): empty arrays, null, the empty string, "0", integer 0 and
false are empty; every object is non-empty. -/
def phpEmpty : PVal → Bool
  | .pobj .nil => true
  | .plist .nil => true
  | .pnull => true
  | .pstr s => s = "" || s = "0"
  | .pint n => n = 0
  | .pbool b => !b
  | _ => false

/-- PHP truthiness of a set variable is the negation of empty(). -/
def phpTruthy (v : PVal) : Bool := !phpEmpty v

/-- PHP array_filter with no callback: keep the entries with truthy values. -/
def arrayFilter : List (String × PVal) → List (String × PVal)
  | [] => []
  | (k, v) :: rest =>
      if phpTruthy v then (k, v) :: arrayFilter rest else arrayFilter rest

def lookupAssoc : List (String × PVal) → String → Option PVal
  | [], _ => none
  | (k, v) :: rest, key => if k = key then some v else lookupAssoc rest key

/-- Null-coalescing read of a string key (the PHP idiom v[k] ?? d): the
default is used when the key is missing or its value is null, and for any
non-array subject. -/
def phpGetNN (v : PVal) (k : String) (d : PVal) : PVal :=
  match v with
  | .pobj es =>
      match lookupPObj es k with
      | some x => if x = .pnull then d else x
      | none => d
  | _ => d

/-- Raw read of a string key, no default (used for strict === comparisons). -/
def phpGetRaw (v : PVal) (k : String) : Option PVal :=
  match v with
  | .pobj es => lookupPObj es k
  | _ => none

/-- PHP isset(v[k]): the key exists with a non-null value. -/
def issetKey (v : PVal) (k : String) : Bool :=
  match v with
  | .pobj es =>
      match lookupPObj es k with
      | some x => x ≠ .pnull
      | none => false
  | _ => false

/-!
## Extended-Value Codec, decode direction (DataController::castExtendedJson)

The source wraps two throwing constructors in try/catch: new DateTime(s) (date
string parsing) and new MongoDB\BSON\Regex(p, o) (which rejects some
pattern/flag combinations).  Their success behaviour is environment data we
abstract over; the ObjectId constructor's validity condition (24 hex chars) is
fixed and modelled directly.  Every catch block returns the input value
unchanged, so the embedding is a total function: the decode direction never
propagates an error.
-/

structure BsonEnv where
  parseDate : String → Option Int
  regexOk : String → String → Bool

/-- Sequential tagged-shape checks of castExtendedJson that run after the
$oid and $date checks fell through: $numberLong, $numberDecimal, $regex.
Returns none when no tagged branch produced a value, meaning the source
proceeds to the recursive foreach. -/
def castTaggedTail (env : BsonEnv) (es : PObj) : Option PVal :=
  match lookupPObj es "$numberLong" with
  | some (.pstr s) => some (.pstr s)
  | _ =>
      match lookupPObj es "$numberDecimal" with
      | some (.pstr s) => some (.pstr s)
      | _ =>
          match lookupPObj es "$regex" with
          | some (.pstr p) =>
              let opts :=
                match lookupPObj es "$options" with
                | some (.pstr o) => o
                | _ => ""
              some (if env.regexOk p opts then .pregex p opts else .pobj es)
          | _ => none

/-- The $date branch of castExtendedJson.  A string or int payload goes
through new DateTime (catch returns the whole value unchanged); an array
payload with a non-null $numberLong member becomes UTCDateTime((int) ...);
any other shape falls through to the remaining tagged checks. -/
def castTaggedDate (env : BsonEnv) (es : PObj) (d : PVal) : Option PVal :=
  match d with
  | .pstr s =>
      match env.parseDate s with
      | some ms => some (.pdate ms)
      | none => some (.pobj es)
  | .pint n =>
      match env.parseDate (toString n) with
      | some ms => some (.pdate ms)
      | none => some (.pobj es)
  | .pobj ds =>
      match lookupPObj ds "$numberLong" with
      | some x => if x = .pnull then castTaggedTail env es else some (.pdate (phpIntCast x))
      | none => castTaggedTail env es
  | _ => castTaggedTail env es

/-- All tagged-shape checks of castExtendedJson on an associative array, in
source order: $oid (string payload only), $date, then the tail checks.
Returns none when the source falls through to the recursive foreach. -/
def castTagged (env : BsonEnv) (es : PObj) : Option PVal :=
  match lookupPObj es "$oid" with
  | some (.pstr s) =>
      some (if isHex24 s then .poid (asciiLower s) else .pobj es)
  | _ =>
      match lookupPObj es "$date" with
      | some d => castTaggedDate env es d
      | none => castTaggedTail env es

mutual

/-- DataController::castExtendedJson — decode wire JSON trees into engine
values.  Non-arrays are returned as they are; associative arrays are first
probed for the five tagged shapes; when none fires the source mutates every
entry in place with the recursive result, which is a structure-preserving
map. -/
def castExtendedJson (env : BsonEnv) : PVal → PVal
  | .pobj es =>
      match castTagged env es with
      | some r => r
      | none => .pobj (castEntries env es)
  | .plist l => .plist (castListEls env l)
  | v => v

def castEntries (env : BsonEnv) : PObj → PObj
  | .nil => .nil
  | .cons k v rest => .cons k (castExtendedJson env v) (castEntries env rest)

def castListEls (env : BsonEnv) : PList → PList
  | .nil => .nil
  | .cons v rest => .cons (castExtendedJson env v) (castListEls env rest)

end

/-- DataController::normalizeId — render the top-level _id property of a
result document as a string when it is an ObjectId; nothing else in the
document is touched. -/
def normalizeIdEntries : PObj → PObj
  | .nil => .nil
  | .cons k v rest =>
      if k = "_id" then
        match v with
        | .poid h => .cons k (.pstr h) rest
        | _ => .cons k v rest
      else .cons k v (normalizeIdEntries rest)

def normalizeId : PVal → PVal
  | .pobj es => .pobj (normalizeIdEntries es)
  | v => v

/-- Environment used to instantiate theorems at concrete inputs; its
functions are never consulted by those instances. -/
def env0 : BsonEnv := ⟨fun _ => none, fun _ _ => true⟩

example :
    castExtendedJson env0
      (.pobj (.cons "$oid" (.pstr "aaaaaaaaaaaaaaaaaaaaaaaa") .nil)) =
      .poid "aaaaaaaaaaaaaaaaaaaaaaaa" := by decide

example :
    castExtendedJson env0
      (.pobj (.cons "$oid" (.pobj (.cons "$numberLong" (.pstr "5") .nil)) .nil)) =
      .pobj (.cons "$oid" (.pstr "5") .nil) := by decide

/-!
## Case Normalizer (DataController::buildCaseMap /
DataController::remapQueryKeysCaseInsensitive)
-/

def insertAssocStr : List (String × String) → String → String → List (String × String)
  | [], k, v => [(k, v)]
  | (k0, v0) :: rest, k, v =>
      if k0 = k then (k0, v) :: rest else (k0, v0) :: insertAssocStr rest k v

/-- DataController::buildCaseMap — map lowercased field name to the canonical
casing observed in the samples; a later field with the same lowercase form
overwrites the earlier one, as PHP assignment does. -/
def buildCaseMap (fields : List String) : List (String × String) :=
  fields.foldl (fun m f => insertAssocStr m (asciiLower f) f) []

def lookupAssocStr : List (String × String) → String → Option String
  | [], _ => none
  | (k, v) :: rest, key => if k = key then some v else lookupAssocStr rest key

/-- The key rewrite caseMap[strtolower(k)] ?? k. -/
def lookupCase (m : List (String × String)) (k : String) : String :=
  match lookupAssocStr m (asciiLower k) with
  | some t => t
  | none => k

mutual

/-- DataController::remapQueryKeysCaseInsensitive — rewrite every associative
key to its canonical casing; list elements are remapped element-wise; scalars
pass through.  The output object is built by sequential PHP assignments
out[target] = ..., hence the insertPObj accumulator. -/
def remapQueryKeysCaseInsensitive (m : List (String × String)) : PVal → PVal
  | .pobj es => .pobj (remapObj m .nil es)
  | .plist l => .plist (remapList m l)
  | v => v

def remapObj (m : List (String × String)) (acc : PObj) : PObj → PObj
  | .nil => acc
  | .cons k v rest =>
      remapObj m
        (insertPObj acc (lookupCase m k)
          (if isArrV v then remapQueryKeysCaseInsensitive m v else v)) rest

def remapList (m : List (String × String)) : PList → PList
  | .nil => .nil
  | .cons v rest => .cons (remapQueryKeysCaseInsensitive m v) (remapList m rest)

end

/-!
## Fuzzy Transformer (DataController::escapeRegex / DataController::makeFuzzy)
-/

/-- Characters escaped by preg_quote with delimiter '/'. -/
def pregQuoteSpecial (c : Char) : Bool :=
  c = '.' || c = '\\' || c = '+' || c = '*' || c = '?' || c = '[' || c = '^' ||
  c = ']' || c = '$' || c = '(' || c = ')' || c = '\x7b' || c = '\x7d' ||
  c = '=' || c = '!' || c = '<' || c = '>' || c = '|' || c = ':' || c = '-' ||
  c = '#' || c = '/'

def pregQuoteChars : List Char → List Char
  | [] => []
  | c :: rest =>
      if pregQuoteSpecial c then '\\' :: c :: pregQuoteChars rest
      else c :: pregQuoteChars rest

/-- DataController::escapeRegex — preg_quote(s, '/'). -/
def escapeRegex (s : String) : String := String.mk (pregQuoteChars s.data)

mutual

/-- DataController::makeFuzzy — in an associative array, every scalar string
value becomes a case-insensitive pattern-match clause on the regex-escaped
literal; array values are recursed into; list elements go through makeFuzzy,
which leaves bare scalars (hence bare strings inside lists) unchanged. -/
def makeFuzzy : PVal → PVal
  | .pobj es => .pobj (makeFuzzyObj .nil es)
  | .plist l => .plist (makeFuzzyList l)
  | v => v

def makeFuzzyObj (acc : PObj) : PObj → PObj
  | .nil => acc
  | .cons k v rest =>
      match v with
      | .pobj ves => makeFuzzyObj (insertPObj acc k (.pobj (makeFuzzyObj .nil ves))) rest
      | .plist vl => makeFuzzyObj (insertPObj acc k (.plist (makeFuzzyList vl))) rest
      | .pstr s =>
          makeFuzzyObj
            (insertPObj acc k
              (.pobj (.cons "$regex" (.pstr (escapeRegex s))
                (.cons "$options" (.pstr "i") .nil)))) rest
      | _ => makeFuzzyObj (insertPObj acc k v) rest

def makeFuzzyList : PList → PList
  | .nil => .nil
  | .cons v rest => .cons (makeFuzzy v) (makeFuzzyList rest)

end

/-!
## Query Sanitizer (DataController::sanitizeMongoQuery)

The by-reference counter of removed clauses is threaded explicitly.  One PHP
subtlety is modelled exactly: the list branch maps an arrow function over the
elements, and PHP arrow functions capture the outer by-reference counter BY
VALUE, so removals that happen below a list level never reach the caller's
counter; the list branch therefore returns its input counter unchanged.
-/

/-- A pattern value that gets a pattern-match clause dropped: not a string
(this covers a null, i.e. missing, pattern) or blank after trimming. -/
def isBadPattern : PVal → Bool
  | .pstr s => phpTrim s = ""
  | _ => true

mutual

def sanitizeMongoQuery : PVal → Nat → PVal × Nat
  | .pobj es, c =>
      let r := sanitizeObj .nil es c
      (.pobj r.1, r.2)
  | .plist l, c =>
      let r := sanitizeList l c
      (.plist r.1, r.2)
  | v, c => (v, c)

def sanitizeObj (acc : PObj) : PObj → Nat → PObj × Nat
  | .nil, c => (acc, c)
  | .cons k v rest, c =>
      match v with
      | .pobj ves =>
          match lookupPObj ves "$regex" with
          | some pat =>
              if isBadPattern pat then sanitizeObj acc rest (c + 1)
              else
                let r := sanitizeObjR .nil ves c
                sanitizeObj (insertPObj acc k (.pobj r.1)) rest r.2
          | none =>
              let r := sanitizeObj .nil ves c
              sanitizeObj (insertPObj acc k (.pobj r.1)) rest r.2
      | .plist vl =>
          let r := sanitizeList vl c
          sanitizeObj (insertPObj acc k (.plist r.1)) rest r.2
      | _ => sanitizeObj (insertPObj acc k v) rest c

/-- Entries of a surviving pattern-match clause: the source first coerces a
non-null non-string $options value with a (string) cast and then recurses
generically into the clause, which copies the now-string flags; all other
entries are treated exactly as in the generic pass. -/
def sanitizeObjR (acc : PObj) : PObj → Nat → PObj × Nat
  | .nil, c => (acc, c)
  | .cons k v rest, c =>
      if k = "$options" ∧ v ≠ .pnull ∧ isStringV v = false then
        sanitizeObjR (insertPObj acc k (.pstr (phpToString v))) rest c
      else
        match v with
        | .pobj ves =>
            match lookupPObj ves "$regex" with
            | some pat =>
                if isBadPattern pat then sanitizeObjR acc rest (c + 1)
                else
                  let r := sanitizeObjR .nil ves c
                  sanitizeObjR (insertPObj acc k (.pobj r.1)) rest r.2
            | none =>
                let r := sanitizeObj .nil ves c
                sanitizeObjR (insertPObj acc k (.pobj r.1)) rest r.2
        | .plist vl =>
            let r := sanitizeList vl c
            sanitizeObjR (insertPObj acc k (.plist r.1)) rest r.2
        | _ => sanitizeObjR (insertPObj acc k v) rest c

def sanitizeList : PList → Nat → PList × Nat
  | .nil, c => (.nil, c)
  | .cons v rest, c =>
      let r := sanitizeMongoQuery v c
      let rs := sanitizeList rest c
      (.cons r.1 rs.1, c)

end

example :
    sanitizeMongoQuery
      (.pobj (.cons "bio"
        (.pobj (.cons "$regex" (.pstr "") (.cons "$options" (.pstr "i") .nil)))
        .nil)) 0 = (.pobj .nil, 1) := by decide

example :
    sanitizeMongoQuery
      (.pobj (.cons "$or"
        (.plist (.cons (.pobj (.cons "bio" (.pobj (.cons "$regex" (.pstr "") .nil)) .nil)) .nil))
        .nil)) 0 =
      (.pobj (.cons "$or" (.plist (.cons (.pobj .nil) .nil)) .nil), 0) := by decide

/-!
## Response Extractor (DataController::parseModelJson)

json_decode itself is an external primitive: the extractor is parameterised
by a decoder jd mapping a string to its decoded value (none when the text is
not valid JSON).  tryDecode keeps only array results, as the source does with
is_array.  The source tests each strategy's result with a bare PHP if, so a
decoded EMPTY array is falsy and counts as strategy failure.
-/

def openBraceChar : Char := Char.ofNat 123

def closeBraceChar : Char := Char.ofNat 125

def tickChar : Char := Char.ofNat 96

/-- PCRE \s: space, tab, newline, carriage return, form feed, vertical tab. -/
def isPcreSpace (c : Char) : Bool :=
  c = ' ' || c = '\t' || c = '\n' || c = '\r' || c = '\x0c' || c = '\x0b'

def tryDecode (jd : String → Option PVal) (s : String) : Option PVal :=
  match jd (phpTrim s) with
  | some v => if isArrV v then some v else none
  | none => none

/-- PHP truthiness filter applied by the source's if-assignments: a decoded
empty array does not count as success. -/
def truthyOpt : Option PVal → Option PVal
  | some v => if phpTruthy v then some v else none
  | none => none

/-- Skip to just past the first triple-backtick fence; none when there is
no fence. -/
def dropUntilFence : List Char → Option (List Char)
  | [] => none
  | c :: rest =>
      if c = tickChar then
        match rest with
        | c2 :: c3 :: rest2 =>
            if c2 = tickChar ∧ c3 = tickChar then some rest2 else dropUntilFence rest
        | _ => none
      else dropUntilFence rest

/-- The characters strictly before the next triple-backtick fence (the lazy
capture up to the closing fence); none when the fence never closes. -/
def takeUntilFence : List Char → Option (List Char)
  | c1 :: c2 :: c3 :: rest =>
      if c1 = tickChar ∧ c2 = tickChar ∧ c3 = tickChar then some []
      else
        match takeUntilFence (c2 :: c3 :: rest) with
        | some l => some (c1 :: l)
        | none => none
  | _ => none

/-- The optional case-insensitive json tag directly after the opening fence. -/
def stripJsonTag : List Char → List Char
  | a :: b :: c :: d :: rest =>
      if asciiLowerChar a = 'j' ∧ asciiLowerChar b = 's' ∧ asciiLowerChar c = 'o' ∧
          asciiLowerChar d = 'n' then rest
      else a :: b :: c :: d :: rest
  | l => l

def firstIdxChar (l : List Char) (c : Char) : Option Nat :=
  match l with
  | [] => none
  | x :: rest =>
      if x = c then some 0
      else
        match firstIdxChar rest c with
        | some i => some (i + 1)
        | none => none

def lastIdxChar (l : List Char) (c : Char) : Option Nat :=
  match l with
  | [] => none
  | x :: rest =>
      match lastIdxChar rest c with
      | some i => some (i + 1)
      | none => if x = c then some 0 else none

/-- Strategy 1: direct parse when the text begins with an opening brace. -/
def stratDirect (jd : String → Option PVal) (content : String) : Option PVal :=
  match content.data with
  | [] => none
  | c :: _ => if c = openBraceChar then truthyOpt (tryDecode jd content) else none

/-- Strategy 2: parse the first triple-backtick fenced block, with an
optional case-insensitive json tag and leading whitespace skipped. -/
def stratFenced (jd : String → Option PVal) (content : String) : Option PVal :=
  match dropUntilFence content.data with
  | none => none
  | some afterOpen =>
      match takeUntilFence ((stripJsonTag afterOpen).dropWhile isPcreSpace) with
      | none => none
      | some captured => truthyOpt (tryDecode jd (String.mk captured))

/-- Strategy 3: parse the substring between the first opening brace and the
last closing brace. -/
def stratBraces (jd : String → Option PVal) (content : String) : Option PVal :=
  match firstIdxChar content.data openBraceChar, lastIdxChar content.data closeBraceChar with
  | some f, some l =>
      if f < l then truthyOpt (tryDecode jd (String.mk ((content.data.drop f).take (l - f + 1))))
      else none
  | _, _ => none

/-- DataController::parseModelJson — the three extraction attempts in source
order, each returning early on (truthy) success. -/
def parseModelJson (jd : String → Option PVal) (content : String) : Option PVal :=
  match stratDirect jd content with
  | some out => some out
  | none =>
      match stratFenced jd content with
      | some out => some out
      | none => stratBraces jd content

/-- Statement of the extractor from the specification's words: an ordered
list of independent strategies, first success wins. -/
def extractorFirstSuccess (jd : String → Option PVal) (content : String) : Option PVal :=
  [stratDirect jd content, stratFenced jd content, stratBraces jd content].foldr
    (fun s acc =>
      match s with
      | some out => some out
      | none => acc) none

/-!
## Structured error responses and the store-call interface
-/

structure ApiError where
  status : Nat
  errorMsg : String
  hint : Option String
deriving DecidableEq

instance exceptDecEq {ε α : Type} [DecidableEq ε] [DecidableEq α] :
    DecidableEq (Except ε α) := fun x y =>
  match x, y with
  | .ok a, .ok b => if h : a = b then isTrue (by rw [h]) else isFalse (by simp [h])
  | .error a, .error b => if h : a = b then isTrue (by rw [h]) else isFalse (by simp [h])
  | .ok _, .error _ => isFalse (by simp)
  | .error _, .ok _ => isFalse (by simp)

/-- A call actually issued to the data store: the filter or pipeline payload
exactly as handed to the driver, plus the options array. -/
inductive StoreCall where
  | find : PVal → List (String × PVal) → StoreCall
  | aggregate : PVal → List (String × PVal) → StoreCall
deriving DecidableEq

/-- The step of DataController::aiGenerate consuming the extractor result:
a null result is reported as HTTP 502 with the source's message. -/
def aiGenerateParse (jd : String → Option PVal) (content : String) : Except ApiError PVal :=
  match parseModelJson jd content with
  | some j => .ok j
  | none => .error ⟨502, "Model did not return valid JSON", none⟩

/-- The sanitize-and-check step of DataController::aiGenerate: run the
sanitizer with a fresh counter; when at least one clause was reported removed
and the query collapsed to empty, fail with HTTP 422 and the hint. -/
def aiGenerateSanitizeStep (query : PVal) : Except ApiError PVal :=
  let r := sanitizeMongoQuery query 0
  if 0 < r.2 ∧ phpEmpty r.1 then
    .error ⟨422, "Model returned empty $regex; after sanitizing no conditions remained.",
      some "Try a more specific prompt or exact match (e.g., Name equals \"aa\")."⟩
  else .ok r.1

/-!
## Serialization and the dangerous-operator blocklist (AiController::nl2mongo)
-/

def listStartsWith : List Char → List Char → Bool
  | _, [] => true
  | [], _ :: _ => false
  | a :: as, b :: bs => a = b && listStartsWith as bs

def listContainsSeq : List Char → List Char → Bool
  | [], n => listStartsWith [] n
  | c :: rest, n => listStartsWith (c :: rest) n || listContainsSeq rest n

/-- PHP str_contains. -/
def strContains (hay needle : String) : Bool := listContainsSeq hay.data needle.data

def jsonQuoteChars : List Char → List Char
  | [] => []
  | c :: rest =>
      if c = '"' ∨ c = '\\' ∨ c = '/' then '\\' :: c :: jsonQuoteChars rest
      else c :: jsonQuoteChars rest

/-- PHP json_encode of a string with default flags: quotes, backslashes and
slashes escaped (control-character and unicode escaping is not exercised by
any claim and is not modelled). -/
def jsonQuote (s : String) : String :=
  "\"" ++ String.mk (jsonQuoteChars s.data) ++ "\""

mutual

/-- PHP json_encode: associative arrays as objects, lists as arrays.  The
BSON object constructors serialize through JsonSerializable to their extended
JSON forms; they cannot occur in the decoded model output that
AiController::nl2mongo feeds to this function. -/
def jsonEncode : PVal → String
  | .pstr s => jsonQuote s
  | .pint n => toString n
  | .pbool true => "true"
  | .pbool false => "false"
  | .pnull => "null"
  | .pobj es => "\x7b" ++ jsonEncodeObj es ++ "\x7d"
  | .plist l => "[" ++ jsonEncodeList l ++ "]"
  | .poid h => "\x7b\"$oid\":" ++ jsonQuote h ++ "\x7d"
  | .pdate n => "\x7b\"$date\":\x7b\"$numberLong\":" ++ jsonQuote (toString n) ++ "\x7d\x7d"
  | .pregex p o => "\x7b\"$regex\":" ++ jsonQuote p ++ ",\"$options\":" ++ jsonQuote o ++ "\x7d"

def jsonEncodeObj : PObj → String
  | .nil => ""
  | .cons k v .nil => jsonQuote k ++ ":" ++ jsonEncode v
  | .cons k v (.cons k2 v2 rest) =>
      jsonQuote k ++ ":" ++ jsonEncode v ++ "," ++ jsonEncodeObj (.cons k2 v2 rest)

def jsonEncodeList : PList → String
  | .nil => ""
  | .cons v .nil => jsonEncode v
  | .cons v (.cons v2 rest) => jsonEncode v ++ "," ++ jsonEncodeList (.cons v2 rest)

end

/-- The blocklist closure of AiController::nl2mongo: a subtree is safe when
its json_encode serialization contains neither deny-listed token. -/
def checkSafe (v : PVal) : Bool :=
  !(strContains (jsonEncode v) "$where") && !(strContains (jsonEncode v) "$function")

/-- The null-coalesced empty-array fallback used in the blocklist calls
(projection ?? [] and sort ?? []). -/
def nullToEmptyArr (v : PVal) : PVal := if v = .pnull then .plist .nil else v

def clampLimit (raw : Int) : Int := min (max raw 1) 100

inductive NlSuccess where
  | findQ : PVal → PVal → PVal → Int → NlSuccess
  | aggQ : PVal → Int → NlSuccess
deriving DecidableEq

/-- AiController::nl2mongo, from the decoded model JSON onward: reject
non-array or kind-less output (500), then branch on the strict kind
comparison; each branch runs the blocklist check and rejects with HTTP 400
before returning the generated query, never reaching any execution. -/
def nl2mongo (parsed : PVal) : Except ApiError NlSuccess :=
  if !(isArrV parsed && issetKey parsed "kind") then
    .error ⟨500, "Model returned invalid JSON", none⟩
  else if phpGetRaw parsed "kind" = some (.pstr "find") then
    let filter := phpGetNN parsed "filter" (.plist .nil)
    let projection := phpGetNN parsed "projection" .pnull
    let sort := phpGetNN parsed "sort" .pnull
    let limit := clampLimit (phpIntCast (phpGetNN parsed "limit" (.pint 50)))
    if !(checkSafe filter && checkSafe (nullToEmptyArr projection) &&
        checkSafe (nullToEmptyArr sort)) then
      .error ⟨400, "Blocked dangerous operator", none⟩
    else .ok (.findQ filter projection sort limit)
  else if phpGetRaw parsed "kind" = some (.pstr "aggregate") then
    let pipeline := phpGetNN parsed "pipeline" (.plist .nil)
    let limit := clampLimit (phpIntCast (phpGetNN parsed "limit" (.pint 50)))
    if !(checkSafe pipeline) then
      .error ⟨400, "Blocked dangerous operator", none⟩
    else .ok (.aggQ pipeline limit)
  else .error ⟨500, "Unknown kind", none⟩

/-!
## Execution endpoints

AiController::execute and DataController::aiRun, modelled from the collection
check up to the store call they issue; the resulting document loop and the
catch-all 500 sit outside the modelled step.
-/

/-- AiController::castExtended — the source returns its argument unchanged
(the reuse of castExtendedJson is only a comment there). -/
def castExtendedAi (v : PVal) : PVal := v

/-- AiController::execute.  The limit is clamped into 1..100 up front; the
find branch filters falsy options away; the aggregate branch appends the
terminal limit stage before running the pipeline. -/
def execute (collection kind : String) (q : PVal) (pipeline : PList)
    (rawLimit : Int) : Except ApiError StoreCall :=
  let limit := clampLimit rawLimit
  if phpTrim collection = "" then .error ⟨422, "collection required", none⟩
  else if kind = "find" then
    let filter := phpGetNN q "filter" (.plist .nil)
    let projection := phpGetNN q "projection" .pnull
    let sort := phpGetNN q "sort" .pnull
    .ok (.find (castExtendedAi filter)
      (arrayFilter [("limit", .pint limit), ("projection", projection), ("sort", sort)]))
  else if kind = "aggregate" then
    .ok (.aggregate
      (castExtendedAi (.plist (pappend pipeline (.pobj (.cons "$limit" (.pint limit) .nil))))) [])
  else .error ⟨422, "Unknown kind", none⟩

/-- The limit aiRun passes to find: the requested value when positive, else
100; there is no upper clamp. -/
def aiRunAppliedLimit (rawLimit : Int) : Int :=
  if 0 < rawLimit then rawLimit else 100

/-- DataController::aiRun.  An array pipeline is cast and run as-is (with
allowDiskUse) — no limit stage is appended and no blocklist runs; otherwise
the optional fuzzy transform is applied before casting and the find options
carry the applied limit and, with ci, the case-insensitive collation. -/
def aiRun (env : BsonEnv) (collection : String) (query pipeline : PVal)
    (rawLimit : Int) (ci fuzzy : Bool) : Except ApiError StoreCall :=
  if phpTrim collection = "" then .error ⟨422, "Missing collection", none⟩
  else if isArrV pipeline then
    .ok (.aggregate (castExtendedJson env pipeline) [("allowDiskUse", .pbool true)])
  else
    let query1 := if fuzzy && isArrV query then makeFuzzy query else query
    let casted := if isArrV query1 then castExtendedJson env query1 else .plist .nil
    let options := ("limit", PVal.pint (aiRunAppliedLimit rawLimit)) ::
      (if ci then
        [("collation", PVal.pobj (.cons "locale" (.pstr "en") (.cons "strength" (.pint 2) .nil)))]
      else [])
    .ok (.find casted options)

example :
    aiRun env0 "users" (.pobj (.cons "$where" (.pstr "sleep(1)") .nil)) .pnull 100 true false =
      .ok (.find (.pobj (.cons "$where" (.pstr "sleep(1)") .nil))
        [("limit", .pint 100),
         ("collation", .pobj (.cons "locale" (.pstr "en") (.cons "strength" (.pint 2) .nil)))]) := by
  decide

example : strContains (jsonEncode (.pobj (.cons "$where" (.pstr "sleep(1)") .nil))) "$where" = true := by
  decide

/-!
## Auxiliary definitions for the proofs
-/

/-- List concatenation of associative arrays (used to describe the effect of
repeated fresh-key insertions). -/
def appendPObj : PObj → PObj → PObj
  | .nil, es => es
  | .cons k v rest, es => .cons k v (appendPObj rest es)

/-- Invariant of the case map built by buildCaseMap: every entry maps the
lowercased form of its canonical value. -/
def cmKeysOk : List (String × String) → Prop
  | [] => True
  | (k, v) :: rest => asciiLower v = k ∧ cmKeysOk rest

/-- A value already in the image of the normalizer: arrays are fixpoints. -/
def goodVal (m : List (String × String)) (v : PVal) : Prop :=
  isArrV v = true → remapQueryKeysCaseInsensitive m v = v

/-- Entries already in the image of the normalizer: keys are fixpoints of the
case rewrite and values are goodVal. -/
def goodEntries (m : List (String × String)) : PObj → Prop
  | .nil => True
  | .cons k v rest => lookupCase m k = k ∧ goodVal m v ∧ goodEntries m rest

def nodupKeys : PObj → Prop
  | .nil => True
  | .cons k _ rest => hasKeyPObj rest k = false ∧ nodupKeys rest

/-- Concrete decoder standing in for json_decode at the inputs the witnesses
exercise: the text consisting of one brace pair is valid JSON and decodes to
the empty PHP array; no other exercised input is valid JSON. -/
def jd0 : String → Option PVal :=
  fun s => if s = "\x7b\x7d" then some (.pobj .nil) else none

/-!
## Theorems
-/

theorem plistLast_pappend : ∀ (l : PList) (x : PVal), plistLast (pappend l x) = some x
  | .nil, x => rfl
  | .cons v rest, x => by
      have ih := plistLast_pappend rest x
      simp only [pappend]
      cases h : pappend rest x with
      | nil => rw [h] at ih; simp [plistLast] at ih
      | cons y ys =>
          rw [h] at ih
          rw [show plistLast (PList.cons v (PList.cons y ys)) = plistLast (PList.cons y ys) from rfl]
          exact ih

theorem clampLimit_bounds (raw : Int) : 1 ≤ clampLimit raw ∧ clampLimit raw ≤ 100 := by
  unfold clampLimit
  constructor
  · exact le_min (le_max_right raw 1) (by norm_num)
  · exact min_le_right _ _

theorem aiRunAppliedLimit_pos (raw : Int) : 1 ≤ aiRunAppliedLimit raw := by
  unfold aiRunAppliedLimit
  split <;> omega

/-- C2: corrected.  The claim holds for AiController::execute: the aggregate
branch unconditionally appends the terminal limit stage with the clamped
limit, so the executed pipeline always ends in that stage, whatever stages it
already contains.  It fails for DataController::aiRun (the endpoint the
specification's Run signature describes), which executes the pipeline
unchanged — see the counterexample. -/
theorem c2_execute_appends_terminal_limit :
    ∀ (collection : String) (q : PVal) (pipeline : PList) (raw : Int),
      phpTrim collection ≠ "" →
      execute collection "aggregate" q pipeline raw =
        .ok (.aggregate
          (.plist (pappend pipeline (.pobj (.cons "$limit" (.pint (clampLimit raw)) .nil)))) []) ∧
      plistLast (pappend pipeline (.pobj (.cons "$limit" (.pint (clampLimit raw)) .nil))) =
        some (.pobj (.cons "$limit" (.pint (clampLimit raw)) .nil)) ∧
      1 ≤ clampLimit raw ∧ clampLimit raw ≤ 100 := by
  intro collection q pipeline raw hcol
  refine ⟨?_, plistLast_pappend _ _, clampLimit_bounds raw⟩
  simp [execute, castExtendedAi, hcol]

theorem c2_execute_appends_terminal_limit_witness :
    phpTrim "users" ≠ "" ∧
    execute "users" "aggregate" .pnull
        (.cons (.pobj (.cons "$match" (.plist .nil) .nil)) .nil) 10 =
      .ok (.aggregate
        (.plist (.cons (.pobj (.cons "$match" (.plist .nil) .nil))
          (.cons (.pobj (.cons "$limit" (.pint 10) .nil)) .nil))) []) := by
  have h := c2_execute_appends_terminal_limit "users" .pnull
    (.cons (.pobj (.cons "$match" (.plist .nil) .nil)) .nil) 10 (by decide)
  exact ⟨by decide, by rw [h.1]; decide⟩

/-- C2: counterexample.  DataController::aiRun given the pipeline of the
specification's scenario with limit 10 issues the pipeline to the store
unchanged: its last stage is still the match stage and no limit stage was
appended. -/
theorem c2_aiRun_counterexample :
    aiRun env0 "users" .pnull
        (.plist (.cons (.pobj (.cons "$match" (.plist .nil) .nil)) .nil)) 10 true false =
      .ok (.aggregate (.plist (.cons (.pobj (.cons "$match" (.plist .nil) .nil)) .nil))
        [("allowDiskUse", .pbool true)]) ∧
    plistLast (.cons (.pobj (.cons "$match" (.plist .nil) .nil)) .nil) =
      some (.pobj (.cons "$match" (.plist .nil) .nil)) ∧
    (PVal.pobj (.cons "$match" (.plist .nil) .nil)) ≠ .pobj (.cons "$limit" (.pint 10) .nil) := by
  refine ⟨by decide, by decide, by decide⟩

/-- C3: corrected.  The limit clamp into 1..100 exists only in
AiController::execute; DataController::aiRun merely replaces non-positive
limits by 100 and otherwise applies the requested value unchanged, so only a
lower bound holds there — see the counterexample for the upper bound. -/
theorem c3_limit_clamping :
    (∀ raw : Int, 1 ≤ clampLimit raw ∧ clampLimit raw ≤ 100) ∧
    (∀ raw : Int, 1 ≤ aiRunAppliedLimit raw) ∧
    (∀ (collection : String) (q : PVal) (pipeline : PList) (raw : Int),
      phpTrim collection ≠ "" →
      ∃ opts, execute collection "find" q pipeline raw =
          .ok (.find (phpGetNN q "filter" (.plist .nil)) opts) ∧
        lookupAssoc opts "limit" = some (.pint (clampLimit raw))) := by
  refine ⟨clampLimit_bounds, aiRunAppliedLimit_pos, ?_⟩
  intro collection q pipeline raw hcol
  refine ⟨arrayFilter [("limit", .pint (clampLimit raw)),
    ("projection", phpGetNN q "projection" .pnull), ("sort", phpGetNN q "sort" .pnull)],
    by simp [execute, castExtendedAi, hcol], ?_⟩
  have h1 : 1 ≤ clampLimit raw := (clampLimit_bounds raw).1
  have ht : phpTruthy (.pint (clampLimit raw)) = true := by
    simp [phpTruthy, phpEmpty]
    omega
  simp [arrayFilter, ht, lookupAssoc]

theorem c3_limit_clamping_witness :
    (1 ≤ clampLimit 0 ∧ clampLimit 0 ≤ 100) ∧ 1 ≤ aiRunAppliedLimit (-7) ∧
    ∃ opts, execute "users" "find" .pnull .nil 5000 =
        .ok (.find (phpGetNN .pnull "filter" (.plist .nil)) opts) ∧
      lookupAssoc opts "limit" = some (.pint (clampLimit 5000)) :=
  ⟨c3_limit_clamping.1 0, c3_limit_clamping.2.1 (-7),
    c3_limit_clamping.2.2 "users" .pnull .nil 5000 (by decide)⟩

/-- C3: counterexample.  A requested limit of 5000 on the Run endpoint is
applied as 5000, outside the interval 1..100. -/
theorem c3_aiRun_counterexample :
    aiRun env0 "users" (.pobj (.cons "Name" (.pstr "aa") .nil)) .pnull 5000 true false =
      .ok (.find (.pobj (.cons "Name" (.pstr "aa") .nil))
        [("limit", .pint 5000),
         ("collation", .pobj (.cons "locale" (.pstr "en") (.cons "strength" (.pint 2) .nil)))]) ∧
    ¬ ((5000 : Int) ≤ 100) := by
  refine ⟨by decide, by decide⟩

/-- C5: corrected.  The extractor is exactly the ordered first-success
composition of the three strategies, but strategy success is PHP truthiness,
so a decoded empty object counts as failure; and when every strategy fails
the Generate request reports the hard failure as HTTP 502 (not 500), with no
retry. -/
theorem c5_extractor_strategies :
    (∀ (jd : String → Option PVal) (content : String),
      parseModelJson jd content = extractorFirstSuccess jd content) ∧
    (∀ (jd : String → Option PVal) (content : String),
      parseModelJson jd content = none →
      aiGenerateParse jd content = .error ⟨502, "Model did not return valid JSON", none⟩) := by
  constructor
  · intro jd content
    unfold parseModelJson extractorFirstSuccess
    cases stratDirect jd content <;> cases stratFenced jd content <;>
      cases stratBraces jd content <;> rfl
  · intro jd content h
    unfold aiGenerateParse
    rw [h]

theorem c5_extractor_strategies_witness :
    parseModelJson jd0 "no json here" = extractorFirstSuccess jd0 "no json here" ∧
    aiGenerateParse jd0 "no json here" = .error ⟨502, "Model did not return valid JSON", none⟩ :=
  ⟨c5_extractor_strategies.1 jd0 "no json here",
    c5_extractor_strategies.2 jd0 "no json here" (by decide)⟩

/-- C5: counterexample.  The text consisting of the two braces is a
well-formed JSON object (the concrete decoder jd0 decodes it, as json_decode
does, to the empty PHP array), yet the extractor rejects it — the PHP
truthiness test discards the falsy empty array — and the request fails with
HTTP 502 where the claim requires the well-formed object to be returned and
failures to be HTTP 500. -/
theorem c5_counterexample :
    jd0 "\x7b\x7d" = some (.pobj .nil) ∧
    aiGenerateParse jd0 "\x7b\x7d" = .error ⟨502, "Model did not return valid JSON", none⟩ ∧
    (502 : Nat) ≠ 500 := by
  refine ⟨by decide, by decide, by decide⟩

theorem phpGetRaw_obj : ∀ {parsed : PVal} {k : String} {v : PVal},
    phpGetRaw parsed k = some v → ∃ es, parsed = .pobj es ∧ lookupPObj es k = some v := by
  intro parsed k v h
  cases parsed
  case pobj es => exact ⟨es, rfl, h⟩
  all_goals simp [phpGetRaw] at h

/-- C1: corrected.  The rejection exists only in the generation endpoint
AiController::nl2mongo: there, whenever the serialization of the generated
filter, projection, sort or pipeline contains a deny-listed token, the
request is answered with HTTP 400 "Blocked dangerous operator" and no query
is returned (nl2mongo issues no store call at all).  The run endpoints
perform no such check, so a dangerous query reaching them is executed — see
the counterexample. -/
theorem c1_nl2mongo_blocks_dangerous_operator :
    (∀ parsed : PVal, phpGetRaw parsed "kind" = some (.pstr "find") →
      (checkSafe (phpGetNN parsed "filter" (.plist .nil)) = false ∨
       checkSafe (nullToEmptyArr (phpGetNN parsed "projection" .pnull)) = false ∨
       checkSafe (nullToEmptyArr (phpGetNN parsed "sort" .pnull)) = false) →
      nl2mongo parsed = .error ⟨400, "Blocked dangerous operator", none⟩) ∧
    (∀ parsed : PVal, phpGetRaw parsed "kind" = some (.pstr "aggregate") →
      checkSafe (phpGetNN parsed "pipeline" (.plist .nil)) = false →
      nl2mongo parsed = .error ⟨400, "Blocked dangerous operator", none⟩) := by
  constructor
  · intro parsed hk hbad
    obtain ⟨es, rfl, hlk⟩ := phpGetRaw_obj hk
    unfold nl2mongo
    rw [if_neg (by simp [isArrV, issetKey, hlk])]
    rw [if_pos hk]
    rcases hbad with hb | hb | hb <;> simp [hb]
  · intro parsed hk hbad
    obtain ⟨es, rfl, hlk⟩ := phpGetRaw_obj hk
    unfold nl2mongo
    rw [if_neg (by simp [isArrV, issetKey, hlk])]
    rw [if_neg (by simp [hk]), if_pos hk]
    simp [hbad]

theorem c1_nl2mongo_blocks_dangerous_operator_witness :
    nl2mongo (.pobj (.cons "kind" (.pstr "find")
        (.cons "filter" (.pobj (.cons "$where" (.pstr "this.a == 1") .nil)) .nil))) =
      .error ⟨400, "Blocked dangerous operator", none⟩ :=
  c1_nl2mongo_blocks_dangerous_operator.1 _ (by decide) (Or.inl (by decide))

/-- C1: counterexample.  A query whose serialized form contains the
deny-listed token reaches DataController::aiRun and is issued to the data
store as a find call, instead of being rejected with a DangerousOperator
error: the Run endpoint never runs the blocklist. -/
theorem c1_counterexample :
    strContains (jsonEncode (.pobj (.cons "$where" (.pstr "sleep(1)") .nil))) "$where" = true ∧
    aiRun env0 "users" (.pobj (.cons "$where" (.pstr "sleep(1)") .nil)) .pnull 100 true false =
      .ok (.find (.pobj (.cons "$where" (.pstr "sleep(1)") .nil))
        [("limit", .pint 100),
         ("collation", .pobj (.cons "locale" (.pstr "en") (.cons "strength" (.pint 2) .nil)))]) := by
  refine ⟨by decide, by decide⟩

/-- C6: corrected.  The decode direction is total and converts no cast
failure into an error: a tagged literal with an unparsable hex id, a
non-string non-array id payload, an unrecognized scalar date shape or an
unparsable date string is returned unchanged.  However a malformed tagged
literal whose payload is itself an array is not left untouched: the codec
falls through to the recursive pass and may rewrite nested tagged literals
inside it — see the counterexample. -/
theorem c6_decode_never_raises :
    (∀ (env : BsonEnv) (es : PObj) (s : String),
      lookupPObj es "$oid" = some (.pstr s) → isHex24 s = false →
      castExtendedJson env (.pobj es) = .pobj es) ∧
    (∀ (env : BsonEnv) (v : PVal), isArrV v = false → isStringV v = false →
      castExtendedJson env (.pobj (.cons "$oid" v .nil)) = .pobj (.cons "$oid" v .nil)) ∧
    (∀ (env : BsonEnv) (b : Bool),
      castExtendedJson env (.pobj (.cons "$date" (.pbool b) .nil)) =
        .pobj (.cons "$date" (.pbool b) .nil)) ∧
    (∀ (env : BsonEnv) (es : PObj) (s : String),
      lookupPObj es "$oid" = none → lookupPObj es "$date" = some (.pstr s) →
      env.parseDate s = none → castExtendedJson env (.pobj es) = .pobj es) := by
  refine ⟨?_, ?_, ?_, ?_⟩
  · intro env es s hlk hx
    simp [castExtendedJson, castTagged, hlk, hx]
  · intro env v hv hs
    cases v <;> simp_all [isArrV, isStringV] <;>
      simp [castExtendedJson, castTagged, castTaggedTail, castEntries, lookupPObj]
  · intro env b
    simp [castExtendedJson, castTagged, castTaggedDate, castTaggedTail, castEntries, lookupPObj]
  · intro env es s h1 h2 hpd
    simp [castExtendedJson, castTagged, castTaggedDate, h1, h2, hpd]

theorem c6_decode_never_raises_witness :
    castExtendedJson env0 (.pobj (.cons "$oid" (.pstr "zzz") .nil)) =
      .pobj (.cons "$oid" (.pstr "zzz") .nil) ∧
    castExtendedJson env0 (.pobj (.cons "$oid" (.pint 5) .nil)) =
      .pobj (.cons "$oid" (.pint 5) .nil) ∧
    castExtendedJson env0 (.pobj (.cons "$date" (.pbool true) .nil)) =
      .pobj (.cons "$date" (.pbool true) .nil) ∧
    castExtendedJson env0 (.pobj (.cons "$date" (.pstr "not-a-date") .nil)) =
      .pobj (.cons "$date" (.pstr "not-a-date") .nil) :=
  ⟨c6_decode_never_raises.1 env0 _ "zzz" (by decide) (by decide),
   c6_decode_never_raises.2.1 env0 (.pint 5) (by decide) (by decide),
   c6_decode_never_raises.2.2.1 env0 true,
   c6_decode_never_raises.2.2.2 env0 _ "not-a-date" (by decide) (by decide) rfl⟩

/-- C6: counterexample.  The malformed tagged literal whose id payload is an
array (a nested 64-bit wrapper) is not returned unchanged: the codec recurses
into it and rewrites the nested tagged literal, yielding a different tree. -/
theorem c6_counterexample :
    castExtendedJson env0
        (.pobj (.cons "$oid" (.pobj (.cons "$numberLong" (.pstr "5") .nil)) .nil)) =
      .pobj (.cons "$oid" (.pstr "5") .nil) ∧
    PVal.pobj (.cons "$oid" (.pstr "5") .nil) ≠
      .pobj (.cons "$oid" (.pobj (.cons "$numberLong" (.pstr "5") .nil)) .nil) := by
  refine ⟨by decide, by decide⟩

/-- C7: corrected.  Decoding a tagged 24-hex id yields the object reference
and re-encoding it through the Run endpoint's per-document renderer restores
the original (lowercase) hex string — but that renderer only rewrites the
top-level primary-key field, not every object-reference anywhere in the
document; see the counterexample. -/
theorem c7_oid_roundtrip_top_id :
    ∀ (env : BsonEnv) (h : String) (rest : PObj), isHex24 h = true → asciiLower h = h →
      castExtendedJson env (.pobj (.cons "$oid" (.pstr h) .nil)) = .poid h ∧
      normalizeId (.pobj (.cons "_id" (.poid h) rest)) = .pobj (.cons "_id" (.pstr h) rest) := by
  intro env h rest hx hl
  constructor
  · simp [castExtendedJson, castTagged, lookupPObj, hx, hl]
  · simp [normalizeId, normalizeIdEntries]

theorem c7_oid_roundtrip_top_id_witness :
    castExtendedJson env0 (.pobj (.cons "$oid" (.pstr "64ddc0a1e4b0f2a1c8d9e7aa") .nil)) =
      .poid "64ddc0a1e4b0f2a1c8d9e7aa" ∧
    normalizeId (.pobj (.cons "_id" (.poid "64ddc0a1e4b0f2a1c8d9e7aa")
        (.cons "Name" (.pstr "aa") .nil))) =
      .pobj (.cons "_id" (.pstr "64ddc0a1e4b0f2a1c8d9e7aa") (.cons "Name" (.pstr "aa") .nil)) :=
  c7_oid_roundtrip_top_id env0 "64ddc0a1e4b0f2a1c8d9e7aa"
    (.cons "Name" (.pstr "aa") .nil) (by decide) (by decide)

/-- C7: counterexample.  A result document carrying an object reference in a
non-primary-key field keeps that reference un-rendered: only the top-level
_id is turned into its string form, refuting the claim that every
object-reference value anywhere in the document is rendered as a string. -/
theorem c7_counterexample :
    normalizeId (.pobj (.cons "_id" (.poid "aaaaaaaaaaaaaaaaaaaaaaaa")
        (.cons "ref" (.poid "ffffffffffffffffffffffff") .nil))) =
      .pobj (.cons "_id" (.pstr "aaaaaaaaaaaaaaaaaaaaaaaa")
        (.cons "ref" (.poid "ffffffffffffffffffffffff") .nil)) ∧
    isStringV (.poid "ffffffffffffffffffffffff") = false := by
  refine ⟨by decide, by decide⟩

/-- C10: confirmed.  The Fuzzy Transformer rewrites the string under the
extended-JSON id tag into a case-insensitive pattern-match clause on the
regex-escaped literal, and the subsequent extended-JSON cast then decodes
that clause as a regex — the tagged literal is no longer decodable as an
object reference. -/
theorem c10_fuzzy_rewrites_tagged_oid :
    ∀ (env : BsonEnv) (h : String), env.regexOk (escapeRegex h) "i" = true →
      makeFuzzy (.pobj (.cons "_id" (.pobj (.cons "$oid" (.pstr h) .nil)) .nil)) =
        .pobj (.cons "_id" (.pobj (.cons "$oid"
          (.pobj (.cons "$regex" (.pstr (escapeRegex h))
            (.cons "$options" (.pstr "i") .nil))) .nil)) .nil) ∧
      castExtendedJson env
          (.pobj (.cons "_id" (.pobj (.cons "$oid"
            (.pobj (.cons "$regex" (.pstr (escapeRegex h))
              (.cons "$options" (.pstr "i") .nil))) .nil)) .nil)) =
        .pobj (.cons "_id" (.pobj (.cons "$oid" (.pregex (escapeRegex h) "i") .nil)) .nil) := by
  intro env h hreg
  constructor
  · simp [makeFuzzy, makeFuzzyObj, insertPObj]
  · simp [castExtendedJson, castTagged, castTaggedTail, castEntries, lookupPObj, hreg]

theorem c10_fuzzy_rewrites_tagged_oid_witness :
    makeFuzzy (.pobj (.cons "_id" (.pobj (.cons "$oid"
        (.pstr "64ddc0a1e4b0f2a1c8d9e7aa") .nil)) .nil)) =
      .pobj (.cons "_id" (.pobj (.cons "$oid"
        (.pobj (.cons "$regex" (.pstr (escapeRegex "64ddc0a1e4b0f2a1c8d9e7aa"))
          (.cons "$options" (.pstr "i") .nil))) .nil)) .nil) ∧
    castExtendedJson env0
        (.pobj (.cons "_id" (.pobj (.cons "$oid"
          (.pobj (.cons "$regex" (.pstr (escapeRegex "64ddc0a1e4b0f2a1c8d9e7aa"))
            (.cons "$options" (.pstr "i") .nil))) .nil)) .nil)) =
      .pobj (.cons "_id" (.pobj (.cons "$oid"
        (.pregex (escapeRegex "64ddc0a1e4b0f2a1c8d9e7aa") "i") .nil)) .nil) :=
  c10_fuzzy_rewrites_tagged_oid env0 "64ddc0a1e4b0f2a1c8d9e7aa" rfl

theorem insertPObj_ne_nil : ∀ (acc : PObj) (k : String) (v : PVal), insertPObj acc k v ≠ .nil := by
  intro acc k v
  cases acc with
  | nil => simp [insertPObj]
  | cons k0 v0 rest =>
      simp only [insertPObj]
      split <;> simp

theorem sanitizeList_count : ∀ (l : PList) (c : Nat), (sanitizeList l c).2 = c := by
  intro l c
  cases l <;> simp [sanitizeList]

theorem sanitizeObj_cons_bad {ves : PObj} {pat : PVal}
    (hl : lookupPObj ves "$regex" = some pat) (hb : isBadPattern pat = true)
    (acc : PObj) (k : String) (rest : PObj) (c : Nat) :
    sanitizeObj acc (.cons k (.pobj ves) rest) c = sanitizeObj acc rest (c + 1) := by
  simp [sanitizeObj, hl, hb]

theorem sanitizeObj_cons_good {ves : PObj} {pat : PVal}
    (hl : lookupPObj ves "$regex" = some pat) (hb : isBadPattern pat = false)
    (acc : PObj) (k : String) (rest : PObj) (c : Nat) :
    sanitizeObj acc (.cons k (.pobj ves) rest) c =
      sanitizeObj (insertPObj acc k (.pobj (sanitizeObjR .nil ves c).1)) rest
        (sanitizeObjR .nil ves c).2 := by
  simp [sanitizeObj, hl, hb]

theorem sanitizeObj_cons_noregex {ves : PObj} (hl : lookupPObj ves "$regex" = none)
    (acc : PObj) (k : String) (rest : PObj) (c : Nat) :
    sanitizeObj acc (.cons k (.pobj ves) rest) c =
      sanitizeObj (insertPObj acc k (.pobj (sanitizeObj .nil ves c).1)) rest
        (sanitizeObj .nil ves c).2 := by
  simp [sanitizeObj, hl]

theorem sanitizeObj_cons_plist (acc : PObj) (k : String) (vl : PList) (rest : PObj) (c : Nat) :
    sanitizeObj acc (.cons k (.plist vl) rest) c =
      sanitizeObj (insertPObj acc k (.plist (sanitizeList vl c).1)) rest (sanitizeList vl c).2 := by
  simp [sanitizeObj]

theorem sanitizeObj_cons_scalar {v : PVal} (hv : isArrV v = false)
    (acc : PObj) (k : String) (rest : PObj) (c : Nat) :
    sanitizeObj acc (.cons k v rest) c = sanitizeObj (insertPObj acc k v) rest c := by
  cases v <;> simp_all [isArrV] <;> simp [sanitizeObj]

/-- Whenever the generic sanitizing pass returns an empty object, the
accumulator it started from was already empty: every surviving entry is
inserted, and insertion never yields the empty object. -/
theorem sanitizeObj_acc_nil : ∀ (es acc : PObj) (c : Nat),
    (sanitizeObj acc es c).1 = .nil → acc = .nil
  | .nil, acc, c => by
      intro h
      simpa [sanitizeObj] using h
  | .cons k v rest, acc, c => by
      intro h
      by_cases hv : isArrV v = true
      · cases v with
        | pobj ves =>
          cases hl : lookupPObj ves "$regex" with
          | some pat =>
              by_cases hb : isBadPattern pat = true
              · rw [sanitizeObj_cons_bad hl hb] at h
                exact sanitizeObj_acc_nil rest acc (c + 1) h
              · rw [sanitizeObj_cons_good hl (by simpa using hb)] at h
                exact absurd (sanitizeObj_acc_nil rest _ _ h) (insertPObj_ne_nil _ _ _)
          | none =>
              rw [sanitizeObj_cons_noregex hl] at h
              exact absurd (sanitizeObj_acc_nil rest _ _ h) (insertPObj_ne_nil _ _ _)
        | plist vl =>
          rw [sanitizeObj_cons_plist] at h
          exact absurd (sanitizeObj_acc_nil rest _ _ h) (insertPObj_ne_nil _ _ _)
        | pstr s => simp [isArrV] at hv
        | pint n => simp [isArrV] at hv
        | pbool b => simp [isArrV] at hv
        | pnull => simp [isArrV] at hv
        | poid s => simp [isArrV] at hv
        | pdate n => simp [isArrV] at hv
        | pregex p o => simp [isArrV] at hv
      · rw [sanitizeObj_cons_scalar (by simpa using hv)] at h
        exact absurd (sanitizeObj_acc_nil rest _ _ h) (insertPObj_ne_nil _ _ _)

/-- When sanitizing a non-empty object empties it, every top-level entry was
dropped and each drop bumped the counter, so the final count strictly exceeds
the initial one. -/
theorem sanitizeObj_nil_count : ∀ (es acc : PObj) (c : Nat),
    (sanitizeObj acc es c).1 = .nil → es ≠ .nil → c < (sanitizeObj acc es c).2
  | .nil, acc, c => by
      intro _ hne
      exact absurd rfl hne
  | .cons k v rest, acc, c => by
      intro h _
      by_cases hv : isArrV v = true
      · cases v with
        | pobj ves =>
          cases hl : lookupPObj ves "$regex" with
          | some pat =>
              by_cases hb : isBadPattern pat = true
              · rw [sanitizeObj_cons_bad hl hb] at h ⊢
                cases rest with
                | nil => simp [sanitizeObj]
                | cons k2 v2 rest2 =>
                    exact Nat.lt_of_le_of_lt (Nat.le_succ c)
                      (sanitizeObj_nil_count _ acc (c + 1) h (by simp))
              · rw [sanitizeObj_cons_good hl (by simpa using hb)] at h
                exact absurd (sanitizeObj_acc_nil rest _ _ h) (insertPObj_ne_nil _ _ _)
          | none =>
              rw [sanitizeObj_cons_noregex hl] at h
              exact absurd (sanitizeObj_acc_nil rest _ _ h) (insertPObj_ne_nil _ _ _)
        | plist vl =>
          rw [sanitizeObj_cons_plist] at h
          exact absurd (sanitizeObj_acc_nil rest _ _ h) (insertPObj_ne_nil _ _ _)
        | pstr s => simp [isArrV] at hv
        | pint n => simp [isArrV] at hv
        | pbool b => simp [isArrV] at hv
        | pnull => simp [isArrV] at hv
        | poid s => simp [isArrV] at hv
        | pdate n => simp [isArrV] at hv
        | pregex p o => simp [isArrV] at hv
      · rw [sanitizeObj_cons_scalar (by simpa using hv)] at h
        exact absurd (sanitizeObj_acc_nil rest _ _ h) (insertPObj_ne_nil _ _ _)

theorem sanitizeObjR_cons_options (f : PVal) (hf : f ≠ PVal.pnull) (hfs : isStringV f = false)
    (acc rest : PObj) (c : Nat) :
    sanitizeObjR acc (.cons "$options" f rest) c =
      sanitizeObjR (insertPObj acc "$options" (.pstr (phpToString f))) rest c := by
  cases f with
  | pstr s => simp [isStringV] at hfs
  | pnull => exact absurd rfl hf
  | pint n => rw [sanitizeObjR, if_pos ⟨rfl, hf, hfs⟩] <;> nofun
  | pbool b => rw [sanitizeObjR, if_pos ⟨rfl, hf, hfs⟩] <;> nofun
  | poid s => rw [sanitizeObjR, if_pos ⟨rfl, hf, hfs⟩] <;> nofun
  | pdate n => rw [sanitizeObjR, if_pos ⟨rfl, hf, hfs⟩] <;> nofun
  | pregex p o => rw [sanitizeObjR, if_pos ⟨rfl, hf, hfs⟩] <;> nofun
  | pobj ves => rw [sanitizeObjR, if_pos ⟨rfl, hf, hfs⟩]
  | plist vl => rw [sanitizeObjR, if_pos ⟨rfl, hf, hfs⟩]

theorem sanitizeObjR_cons_scalar (k : String) (v : PVal)
    (hcond : ¬(k = "$options" ∧ v ≠ PVal.pnull ∧ isStringV v = false)) (hv : isArrV v = false)
    (acc rest : PObj) (c : Nat) :
    sanitizeObjR acc (.cons k v rest) c = sanitizeObjR (insertPObj acc k v) rest c := by
  cases v with
  | pstr s => rw [sanitizeObjR, if_neg hcond] <;> nofun
  | pint n => rw [sanitizeObjR, if_neg hcond] <;> nofun
  | pbool b => rw [sanitizeObjR, if_neg hcond] <;> nofun
  | pnull => rw [sanitizeObjR, if_neg hcond] <;> nofun
  | poid s => rw [sanitizeObjR, if_neg hcond] <;> nofun
  | pdate n => rw [sanitizeObjR, if_neg hcond] <;> nofun
  | pregex p o => rw [sanitizeObjR, if_neg hcond] <;> nofun
  | pobj ves => simp [isArrV] at hv
  | plist vl => simp [isArrV] at hv

/-- C4: confirmed.  Whenever sanitization of a non-empty top-level query
removes clauses until the whole query is empty, the request is answered with
the explicit HTTP 422 error naming the condition and carrying a hint for the
caller, instead of proceeding with a match-everything query. -/
theorem c4_empty_after_sanitization_422 :
    ∀ (es : PObj), es ≠ .nil →
      phpEmpty (sanitizeMongoQuery (.pobj es) 0).1 = true →
      aiGenerateSanitizeStep (.pobj es) =
        .error ⟨422, "Model returned empty $regex; after sanitizing no conditions remained.",
          some "Try a more specific prompt or exact match (e.g., Name equals \"aa\")."⟩ := by
  intro es hne hempty
  have hres : (sanitizeObj .nil es 0).1 = .nil := by
    simp only [sanitizeMongoQuery] at hempty
    cases hr : (sanitizeObj .nil es 0).1 with
    | nil => rfl
    | cons k v rest => rw [hr] at hempty; simp [phpEmpty] at hempty
  have hcount : 0 < (sanitizeObj .nil es 0).2 := sanitizeObj_nil_count es .nil 0 hres hne
  unfold aiGenerateSanitizeStep
  rw [if_pos]
  constructor
  · simpa [sanitizeMongoQuery] using hcount
  · simpa [sanitizeMongoQuery, hres] using hempty

theorem c4_empty_after_sanitization_422_witness :
    aiGenerateSanitizeStep (.pobj (.cons "bio"
        (.pobj (.cons "$regex" (.pstr "") (.cons "$options" (.pstr "i") .nil))) .nil)) =
      .error ⟨422, "Model returned empty $regex; after sanitizing no conditions remained.",
        some "Try a more specific prompt or exact match (e.g., Name equals \"aa\")."⟩ :=
  c4_empty_after_sanitization_422 _ (by decide) (by decide)

/-- C8: corrected.  At any associative level, a pattern-match clause whose
pattern is null (missing), not a string, or blank after trimming is dropped
entirely from its parent object together with exactly one counter increment;
a surviving clause gets a non-string non-null flags value coerced to its
string form rather than dropped; and the specification's scenario removes the
bio clause reporting exactly one removal.  The claim's "increments a counter
once per removed clause" nevertheless fails for clauses removed below a list
level, whose increments are lost to the caller — see the counterexample. -/
theorem c8_sanitizer_drop_and_coerce :
    (∀ (k : String) (ves rest : PObj) (c : Nat) (pat : PVal),
      lookupPObj ves "$regex" = some pat → isBadPattern pat = true →
      sanitizeMongoQuery (.pobj (.cons k (.pobj ves) rest)) c =
        sanitizeMongoQuery (.pobj rest) (c + 1)) ∧
    (∀ (key p : String) (f : PVal) (c : Nat),
      phpTrim p ≠ "" → f ≠ .pnull → isStringV f = false →
      sanitizeMongoQuery
          (.pobj (.cons key (.pobj (.cons "$regex" (.pstr p) (.cons "$options" f .nil))) .nil)) c =
        (.pobj (.cons key (.pobj (.cons "$regex" (.pstr p)
          (.cons "$options" (.pstr (phpToString f)) .nil))) .nil), c)) ∧
    sanitizeMongoQuery (.pobj (.cons "bio"
        (.pobj (.cons "$regex" (.pstr "") (.cons "$options" (.pstr "i") .nil))) .nil)) 0 =
      (.pobj .nil, 1) := by
  refine ⟨?_, ?_, by decide⟩
  · intro k ves rest c pat hlk hbad
    simp only [sanitizeMongoQuery]
    rw [sanitizeObj_cons_bad hlk hbad]
  · intro key p f c hp hf hfs
    have hb : isBadPattern (.pstr p) = false := by simp [isBadPattern, hp]
    have hstep : sanitizeObjR .nil (.cons "$regex" (.pstr p) (.cons "$options" f .nil)) c =
        (.cons "$regex" (.pstr p) (.cons "$options" (.pstr (phpToString f)) .nil), c) := by
      rw [sanitizeObjR_cons_scalar "$regex" (.pstr p) (by simp) rfl]
      rw [show insertPObj .nil "$regex" (.pstr p) = .cons "$regex" (.pstr p) .nil from rfl]
      rw [sanitizeObjR_cons_options f hf hfs]
      simp [insertPObj, sanitizeObjR]
    simp only [sanitizeMongoQuery]
    rw [sanitizeObj_cons_good (by simp [lookupPObj]) hb]
    rw [hstep]
    simp [sanitizeObj, insertPObj]

theorem c8_sanitizer_drop_and_coerce_witness :
    sanitizeMongoQuery (.pobj (.cons "x" (.pobj (.cons "$regex" .pnull .nil)) .nil)) 0 =
      sanitizeMongoQuery (.pobj .nil) 1 ∧
    sanitizeMongoQuery (.pobj (.cons "bio" (.pobj (.cons "$regex" (.pstr "ok")
        (.cons "$options" (.pint 7) .nil))) .nil)) 3 =
      (.pobj (.cons "bio" (.pobj (.cons "$regex" (.pstr "ok")
        (.cons "$options" (.pstr (phpToString (.pint 7))) .nil))) .nil), 3) :=
  ⟨c8_sanitizer_drop_and_coerce.1 "x" (.cons "$regex" .pnull .nil) .nil 0 .pnull
      (by decide) (by decide),
   c8_sanitizer_drop_and_coerce.2.1 "bio" "ok" (.pint 7) 3 (by decide) (by decide) (by decide)⟩

/-- C8: counterexample.  A malformed pattern-match clause sitting below a
list level (inside a disjunction) is removed from the tree, yet the reported
removal count stays 0 instead of the claimed one increment per removed
clause: the list branch maps a PHP arrow function over the elements and
arrow functions capture the by-reference counter by value. -/
theorem c8_counterexample :
    sanitizeMongoQuery (.pobj (.cons "$or"
        (.plist (.cons (.pobj (.cons "bio" (.pobj (.cons "$regex" (.pstr "") .nil)) .nil)) .nil))
        .nil)) 0 =
      (.pobj (.cons "$or" (.plist (.cons (.pobj .nil) .nil)) .nil), 0) ∧
    (0 : Nat) ≠ 1 := by
  refine ⟨by decide, by decide⟩

theorem lookupAssocStr_good : ∀ (m : List (String × String)), cmKeysOk m →
    ∀ (s f : String), lookupAssocStr m s = some f → asciiLower f = s
  | [], _, s, f, h => by simp [lookupAssocStr] at h
  | (k0, v0) :: rest, hm, s, f, h => by
      obtain ⟨hk0, hrest⟩ := hm
      simp only [lookupAssocStr] at h
      by_cases he : k0 = s
      · rw [if_pos he] at h
        obtain rfl := Option.some.inj h
        exact he ▸ hk0
      · rw [if_neg he] at h
        exact lookupAssocStr_good rest hrest s f h

/-- The key rewrite of the Case Normalizer is a closure operator on keys for
any case map whose entries map the lowercased form of their value. -/
theorem lookupCase_fix (m : List (String × String)) (hm : cmKeysOk m) (k : String) :
    lookupCase m (lookupCase m k) = lookupCase m k := by
  cases hl : lookupAssocStr m (asciiLower k) with
  | none =>
      have h1 : lookupCase m k = k := by simp [lookupCase, hl]
      rw [h1]
      exact h1
  | some f =>
      have hlow : asciiLower f = asciiLower k := lookupAssocStr_good m hm (asciiLower k) f hl
      have h1 : lookupCase m k = f := by simp [lookupCase, hl]
      rw [h1]
      simp [lookupCase, hlow, hl]

theorem insertAssocStr_keysOk : ∀ (m : List (String × String)) (f : String), cmKeysOk m →
    cmKeysOk (insertAssocStr m (asciiLower f) f)
  | [], f, _ => ⟨rfl, trivial⟩
  | (k0, v0) :: rest, f, hm => by
      obtain ⟨hk0, hrest⟩ := hm
      simp only [insertAssocStr]
      by_cases he : k0 = asciiLower f
      · rw [if_pos he]
        exact ⟨he.symm, hrest⟩
      · rw [if_neg he]
        exact ⟨hk0, insertAssocStr_keysOk rest f hrest⟩

theorem buildCaseMap_keysOk (fields : List String) : cmKeysOk (buildCaseMap fields) := by
  have H : ∀ (fs : List String) (m : List (String × String)), cmKeysOk m →
      cmKeysOk (fs.foldl (fun m f => insertAssocStr m (asciiLower f) f) m) := by
    intro fs
    induction fs with
    | nil => intro m hm; exact hm
    | cons f rest ih => intro m hm; exact ih _ (insertAssocStr_keysOk m f hm)
  simpa [buildCaseMap] using H fields [] trivial

theorem hasKey_insert_iff : ∀ (acc : PObj) (t : String) (v : PVal) (key : String),
    hasKeyPObj (insertPObj acc t v) key = true ↔ (t = key ∨ hasKeyPObj acc key = true)
  | .nil, t, v, key => by simp [insertPObj, hasKeyPObj]
  | .cons k0 v0 rest, t, v, key => by
      simp only [insertPObj]
      by_cases he : k0 = t
      · subst he
        rw [if_pos rfl]
        simp [hasKeyPObj]
      · rw [if_neg he]
        simp only [hasKeyPObj, Bool.or_eq_true, decide_eq_true_eq,
          hasKey_insert_iff rest t v key]
        tauto

theorem hasKey_append_iff : ∀ (a b : PObj) (key : String),
    hasKeyPObj (appendPObj a b) key = true ↔
      (hasKeyPObj a key = true ∨ hasKeyPObj b key = true)
  | .nil, b, key => by simp [appendPObj, hasKeyPObj]
  | .cons k0 v0 rest, b, key => by
      simp only [appendPObj, hasKeyPObj, Bool.or_eq_true, decide_eq_true_eq,
        hasKey_append_iff rest b key]
      tauto

theorem insert_nodup : ∀ (acc : PObj) (t : String) (v : PVal),
    nodupKeys acc → nodupKeys (insertPObj acc t v)
  | .nil, t, v, _ => by simp [insertPObj, nodupKeys, hasKeyPObj]
  | .cons k0 v0 rest, t, v, hnd => by
      obtain ⟨hk, hrest⟩ := hnd
      simp only [insertPObj]
      by_cases he : k0 = t
      · rw [if_pos he]
        exact ⟨hk, hrest⟩
      · rw [if_neg he]
        refine ⟨?_, insert_nodup rest t v hrest⟩
        cases hh : hasKeyPObj (insertPObj rest t v) k0
        · rfl
        · exfalso
          rcases (hasKey_insert_iff rest t v k0).1 hh with h | h
          · exact he h.symm
          · rw [h] at hk
            cases hk

theorem insert_goodEntries (m : List (String × String)) :
    ∀ (acc : PObj) (t : String) (v : PVal),
      goodEntries m acc → lookupCase m t = t → goodVal m v →
      goodEntries m (insertPObj acc t v)
  | .nil, t, v, _, ht, hv => by
      simp only [insertPObj, goodEntries]
      exact ⟨ht, hv, trivial⟩
  | .cons k0 v0 rest, t, v, hg, ht, hv => by
      obtain ⟨hgk, hgv, hgrest⟩ := hg
      simp only [insertPObj]
      by_cases he : k0 = t
      · rw [if_pos he]
        exact ⟨hgk, hv, hgrest⟩
      · rw [if_neg he]
        exact ⟨hgk, hgv, insert_goodEntries m rest t v hgrest ht hv⟩

theorem remapObj_nodup (m : List (String × String)) :
    ∀ (es acc : PObj), nodupKeys acc → nodupKeys (remapObj m acc es)
  | .nil, acc, h => by simpa [remapObj] using h
  | .cons k v rest, acc, h => by
      simp only [remapObj]
      exact remapObj_nodup m rest _ (insert_nodup _ _ _ h)

theorem appendPObj_nil : ∀ (a : PObj), appendPObj a .nil = a
  | .nil => rfl
  | .cons k v rest => by simp only [appendPObj]; rw [appendPObj_nil rest]

theorem insert_absent : ∀ (acc : PObj) (t : String) (v : PVal), hasKeyPObj acc t = false →
    insertPObj acc t v = appendPObj acc (.cons t v .nil)
  | .nil, t, v, _ => rfl
  | .cons k0 v0 rest, t, v, h => by
      simp only [hasKeyPObj, Bool.or_eq_false_iff, decide_eq_false_iff_not] at h
      obtain ⟨h1, h2⟩ := h
      simp only [insertPObj, appendPObj]
      rw [if_neg h1]
      rw [insert_absent rest t v h2]

theorem appendPObj_snoc : ∀ (a : PObj) (k : String) (v : PVal) (b : PObj),
    appendPObj (appendPObj a (.cons k v .nil)) b = appendPObj a (.cons k v b)
  | .nil, k, v, b => rfl
  | .cons k0 v0 rest, k, v, b => by
      simp only [appendPObj]
      rw [appendPObj_snoc rest k v b]

/-- Re-normalizing an object whose keys are fixpoints, whose values are
already normalized and whose keys are distinct from each other and from the
accumulator reproduces the object behind the accumulator. -/
theorem remapObj_fixed (m : List (String × String)) : ∀ (out acc : PObj),
    goodEntries m out → nodupKeys out →
    (∀ key, hasKeyPObj out key = true → hasKeyPObj acc key = false) →
    remapObj m acc out = appendPObj acc out
  | .nil, acc, _, _, _ => by simp [remapObj, appendPObj_nil]
  | .cons k v rest, acc, hg, hnd, hdisj => by
      obtain ⟨hgk, hgv, hgrest⟩ := hg
      obtain ⟨hndk, hndrest⟩ := hnd
      simp only [remapObj]
      have hstored : (if isArrV v = true then remapQueryKeysCaseInsensitive m v else v) = v := by
        by_cases hva : isArrV v = true
        · rw [if_pos hva]
          exact hgv hva
        · rw [if_neg hva]
      rw [hgk, hstored]
      have hacck : hasKeyPObj acc k = false := hdisj k (by simp [hasKeyPObj])
      rw [insert_absent acc k v hacck]
      have hdisj2 : ∀ key, hasKeyPObj rest key = true →
          hasKeyPObj (appendPObj acc (.cons k v .nil)) key = false := by
        intro key hkey
        have hne : k ≠ key := by
          intro he
          subst he
          rw [hkey] at hndk
          cases hndk
        have hacc : hasKeyPObj acc key = false := by
          refine hdisj key ?_
          simp [hasKeyPObj, hkey]
        cases hh : hasKeyPObj (appendPObj acc (.cons k v .nil)) key
        · rfl
        · exfalso
          rcases (hasKey_append_iff acc _ key).1 hh with h | h
          · rw [hacc] at h
            cases h
          · simp [hasKeyPObj] at h
            exact hne h
      rw [remapObj_fixed m rest _ hgrest hndrest hdisj2]
      exact appendPObj_snoc acc k v rest

mutual

/-- Idempotence of the Case Normalizer for any case map whose entries map the
lowercased form of their canonical value (as every map built by buildCaseMap
does). -/
theorem remapQueryKeys_idem (m : List (String × String)) (hm : cmKeysOk m) :
    ∀ (v : PVal), remapQueryKeysCaseInsensitive m (remapQueryKeysCaseInsensitive m v) =
      remapQueryKeysCaseInsensitive m v
  | .pstr s => rfl
  | .pint n => rfl
  | .pbool b => rfl
  | .pnull => rfl
  | .poid s => rfl
  | .pdate n => rfl
  | .pregex p o => rfl
  | .pobj es => by
      have hgood : goodEntries m (remapObj m .nil es) := remapObj_good m hm es .nil trivial
      have hnd : nodupKeys (remapObj m .nil es) := remapObj_nodup m es .nil trivial
      show PVal.pobj (remapObj m .nil (remapObj m .nil es)) = .pobj (remapObj m .nil es)
      rw [remapObj_fixed m (remapObj m .nil es) .nil hgood hnd (fun key _ => rfl)]
      rfl
  | .plist l => by
      show PVal.plist (remapList m (remapList m l)) = .plist (remapList m l)
      rw [remapList_idem m hm l]

theorem remapObj_good (m : List (String × String)) (hm : cmKeysOk m) :
    ∀ (es acc : PObj), goodEntries m acc → goodEntries m (remapObj m acc es)
  | .nil, acc, hacc => by simpa [remapObj] using hacc
  | .cons k v rest, acc, hacc => by
      simp only [remapObj]
      refine remapObj_good m hm rest _
        (insert_goodEntries m acc _ _ hacc (lookupCase_fix m hm k) ?_)
      intro hv
      by_cases hva : isArrV v = true
      · rw [if_pos hva] at hv ⊢
        exact remapQueryKeys_idem m hm v
      · rw [if_neg hva] at hv
        exact absurd hv hva

theorem remapList_idem (m : List (String × String)) (hm : cmKeysOk m) :
    ∀ (l : PList), remapList m (remapList m l) = remapList m l
  | .nil => rfl
  | .cons v rest => by
      show PList.cons (remapQueryKeysCaseInsensitive m (remapQueryKeysCaseInsensitive m v))
          (remapList m (remapList m rest)) = _
      rw [remapQueryKeys_idem m hm v, remapList_idem m hm rest]
      rfl

end

/-- C9: confirmed.  The Case Normalizer is idempotent: for every query tree
and every case map the program constructs (buildCaseMap maps each lowercased
sampled field path to its canonical casing), re-applying
remapQueryKeysCaseInsensitive to already-normalized output is a no-op. -/
theorem c9_case_normalizer_idempotent :
    ∀ (fields : List String) (q : PVal),
      remapQueryKeysCaseInsensitive (buildCaseMap fields)
        (remapQueryKeysCaseInsensitive (buildCaseMap fields) q) =
      remapQueryKeysCaseInsensitive (buildCaseMap fields) q :=
  fun fields q => remapQueryKeys_idem (buildCaseMap fields) (buildCaseMap_keysOk fields) q
